import Mathlib

/-!
Verification development for the game-motion repository: a shallow embedding
of its dynamic compile-and-execute pipeline (module resolver, bundle compiler
driver, session cache, MCP tool handlers, widget executor, and the
per-container render lifecycle), with theorems checking the natural-language
specification against the code.

Paths are modelled as `List Char` so that the string manipulation performed by
the JavaScript regular expressions in `virtualFilesPlugin`
(src/game-mcp-app/utils.ts) can be embedded faithfully and reasoned about.
-/

namespace GameMotion

/-- A logical file path, as a list of characters. -/
abbrev Path := List Char

/-- The virtual file set: association list from path to source text
(`Record<string, string>` in the source). -/
abbrev FileSet := List (Path × String)

/-- JavaScript truthiness of an optional string: `undefined` and the empty
string are falsy, every other string is truthy.  Mirrors `if (files[c])`. -/
def jsTruthy : Option String → Bool
  | some s => decide (s ≠ "")
  | none => false

/-- Lookup of a key in the virtual file set (`files[c]`). -/
def lookupFile (files : FileSet) (p : Path) : Option String :=
  (files.find? fun e => decide (e.1 = p)).map (·.2)

/-! ### Module resolver (virtualFilesPlugin, src/game-mcp-app/utils.ts lines 31-60) -/

/-- The specifiers the plugin declines to handle
(`args.path === "pixi.js" || args.path === "gsap" || args.path === "react" ||
args.path === "react-dom"`). -/
def isExternalName (p : Path) : Bool :=
  decide (p = "pixi.js".data) || decide (p = "gsap".data) ||
  decide (p = "react".data) || decide (p = "react-dom".data)

/-- Embedding of `args.importer.replace(/\/[^\/]+$/, "")`: remove a trailing
`/segment` (slash followed by one or more non-slash characters at the end).
If the importer contains no slash, or ends with one, it is left unchanged —
in particular a root-level importer such as `main.tsx` is returned whole. -/
def importerDir (l : Path) : Path :=
  let r := l.reverse
  let run := r.takeWhile (fun c => decide (c ≠ '/'))
  if run.length = 0 then l
  else
    match r.drop run.length with
    | '/' :: restRev => restRev.reverse
    | _ => l

/-- Fuel-driven worker for `replace(/\/\.\//g, "/")`: scan left to right and
replace each non-overlapping occurrence of `/./` by `/`, continuing the scan
after the replaced region, exactly like a global JavaScript regex replace.
The fuel is always instantiated with the length of the list, which suffices
because each step consumes at least one character. -/
def collapseAux : Nat → Path → Path
  | 0, l => l
  | _ + 1, [] => []
  | fuel + 1, c :: rest =>
    if (c :: rest).take 3 = ['/', '.', '/'] then
      '/' :: collapseAux fuel ((c :: rest).drop 3)
    else
      c :: collapseAux fuel rest

/-- Embedding of `resolved.replace(/\/\.\//g, "/")`. -/
def collapse (l : Path) : Path := collapseAux l.length l

/-- Length of the maximal leading run of non-slash characters. -/
def runLen : Path → Nat
  | [] => 0
  | c :: rest => if c = '/' then 0 else runLen rest + 1

/-- Length of a match of the regex `[^\/]+\/\.\.\//` anchored at the head of
the list, if any: a nonempty run of non-slash characters followed by the four
characters `/../`.  Because the run may contain no slash, the greedy `[^\/]+`
must consume exactly the run up to the first slash, so the match is unique. -/
def matchLenAt (l : Path) : Option Nat :=
  let r := runLen l
  if r = 0 then none
  else if (l.drop r).take 4 = ['/', '.', '.', '/'] then some (r + 4) else none

/-- Fuel-driven worker for `replace(/[^\/]+\/\.\.\//g, "")`: scan left to
right; whenever the pattern matches at the current position, delete the match
and continue after it, otherwise keep the character and move on. -/
def stripDotDotAux : Nat → Path → Path
  | 0, l => l
  | _ + 1, [] => []
  | fuel + 1, c :: rest =>
    match matchLenAt (c :: rest) with
    | some n => stripDotDotAux fuel ((c :: rest).drop n)
    | none => c :: stripDotDotAux fuel rest

/-- Embedding of `resolved.replace(/[^\/]+\/\.\.\//g, "")`. -/
def stripDotDot (l : Path) : Path := stripDotDotAux l.length l

/-- Embedding of `resolved.startsWith("./") || resolved.startsWith("../")`. -/
def startsWithRel (p : Path) : Bool :=
  decide (p.take 2 = ['.', '/']) || decide (p.take 3 = ['.', '.', '/'])

/-- Embedding of `resolved.replace(/^\.\//, "")`: strip one leading `./`. -/
def stripLeadingDotSlash (p : Path) : Path :=
  if p.take 2 = ['.', '/'] then p.drop 2 else p

/-- The fixed ordered extension list tried by the plugin. -/
def extensions : List Path :=
  [".tsx".data, ".ts".data, ".jsx".data, ".js".data]

/-- The candidate keys tried against the file set: the literal path, then the
path with each extension appended, in order. -/
def candidates (r : Path) : List Path :=
  r :: extensions.map (fun e => r ++ e)

/-- The path the plugin looks up after joining with the importer directory and
textually normalizing `.` and `..` segments (the body of the `onResolve`
callback between the external check and the candidate loop). -/
def normalizeSpec (importer spec : Path) : Path :=
  let resolved :=
    if startsWithRel spec ∧ importer ≠ [] then
      let d := importerDir importer
      let joined := if d ≠ [] then d ++ ('/' :: spec) else spec
      stripDotDot (collapse joined)
    else spec
  stripLeadingDotSlash resolved

/-- The `onResolve` hook of `virtualFilesPlugin`:
return `none` (defer to esbuild) for the external package names, otherwise
normalize the specifier against the importer and return the first candidate
whose content in the file set is truthy. -/
def resolveSpec (files : FileSet) (importer spec : Path) : Option Path :=
  if isExternalName spec then none
  else (candidates (normalizeSpec importer spec)).find?
    (fun c => jsTruthy (lookupFile files c))

/-! ### The resolver as worded by the spec (§4.1), for comparison -/

/-- Worker for splitting a path into its slash-separated segments. -/
def splitSegsAux : Path → Path → List Path
  | [], acc => [acc.reverse]
  | '/' :: rest, acc => acc.reverse :: splitSegsAux rest []
  | c :: rest, acc => splitSegsAux rest (c :: acc)

/-- Segments of a path, split on slashes. -/
def splitSegs (p : Path) : List Path := splitSegsAux p []

/-- Textual normalization of `.` and `..` segments: a `.` segment is
dropped, a `..` segment removes the segment before it. -/
def normSegs (segs : List Path) : List Path :=
  segs.foldl
    (fun acc seg =>
      if seg = ['.'] then acc
      else if seg = ['.', '.'] then acc.dropLast
      else acc ++ [seg])
    []

/-- Rejoin segments with slashes. -/
def joinSegs (segs : List Path) : Path := (segs.intersperse ['/']).flatten

/-- The directory of a path in the usual sense: everything before the last
slash, and the empty directory for a root-level path with no slash. -/
def specDirname (l : Path) : Path :=
  let r := l.reverse
  ((r.dropWhile (fun c => decide (c ≠ '/'))).drop 1).reverse

/-- Comparison definition following the wording of the spec (§4.1), not the
source: for a relative specifier, compute the directory of the importer path
(the empty directory for a root-level importer), join, normalize `.` and `..`
segments textually, strip a leading `./`, then try the literal path and each
extension in order, returning the first candidate present as a key. -/
def resolve_specModel (files : FileSet) (importer spec : Path) : Option Path :=
  if isExternalName spec then none
  else
    let joined :=
      if startsWithRel spec then
        let d := specDirname importer
        if d = [] then spec else d ++ ('/' :: spec)
      else spec
    let r := stripLeadingDotSlash (joinSegs (normSegs (splitSegs joined)))
    (candidates r).find? (fun c => (lookupFile files c).isSome)

/-! ### Bundler driver (compileGameBundle, src/game-mcp-app/utils.ts lines 85-122) -/

/-- Outcome of the black-box `esbuild.build` call: either it threw, or it
returned output files together with a (possibly empty) error list. -/
inductive BuildOutcome where
  | thrown (msg : String)
  | done (outputs : List String) (errors : List String)

/-- The message returned when neither entry file is present. -/
def entryPointMsg : String :=
  "No entry point found. Files must include 'main.tsx' or 'main.ts'."

/-- The `external` option passed to `esbuild.build` by `compileGameBundle`. -/
def bundleExternals : List Path := ["pixi.js".data, "gsap".data]

/-- Entry selection of `compileGameBundle`:
`files["main.tsx"] ? "main.tsx" : files["main.ts"] ? "main.ts" : null`
(JavaScript truthiness, so a present-but-empty entry file counts as absent). -/
def selectEntry (files : FileSet) : Option Path :=
  if jsTruthy (lookupFile files "main.tsx".data) then some "main.tsx".data
  else if jsTruthy (lookupFile files "main.ts".data) then some "main.ts".data
  else none

/-- Embedding of `compileGameBundle`, with the `esbuild.build` call abstracted as a
function `build` from the file set to a `BuildOutcome`.  Every branch —
including a thrown exception from the build step — is converted into a
returned value, mirroring the `try`/`catch` in the source.  `.error` carries
the `error` field of the returned object, `.ok` the `bundle` field. -/
def compileGameBundle (build : FileSet → BuildOutcome) (files : FileSet) :
    Except String String :=
  match selectEntry files with
  | none => .error entryPointMsg
  | some _ =>
    match build files with
    | .thrown m => .error ("Compile error: " ++ m)
    | .done outputs errors =>
      match outputs.head? with
      | none => .error "esbuild produced no output."
      | some b =>
        if b = "" then .error "esbuild produced no output."
        else if errors.length > 0 then .error (String.intercalate "\n" errors)
        else .ok b

/-- Modelled from the spec: the consumed source-to-bundle compile driver
(§6) is a black box not present under src/; per §4.2 and §6 it resolves
every import specifier, treating each one in its `external` option list as a
runtime `require` left in the emitted code, and reporting any other specifier
the resolver hook declines as unresolved.  Given the import specifiers of a
module, return the list of specifiers left as runtime requires, or the first
unresolved-import error. -/
def bundleImports (files : FileSet) (importer : Path) :
    List Path → Except String (List Path)
  | [] => .ok []
  | s :: rest =>
    if s ∈ bundleExternals then
      (bundleImports files importer rest).map (fun kept => s :: kept)
    else
      match resolveSpec files importer s with
      | some _ => bundleImports files importer rest
      | none => .error ("Could not resolve \"" ++ String.mk s ++ "\"")

/-! ### JSON values and the `initialState` / `state` object check -/

/-- The shape of a parsed JSON value, as relevant to the handler
`typeof`-based validation. -/
inductive JVal where
  | obj (fields : List (String × JVal))
  | arr (elems : List JVal)
  | str (s : String)
  | num (n : Int)
  | bool (b : Bool)
  | null

/-- The object check of both handlers,
`!v || typeof v !== "object" || Array.isArray(v)` negated: `null` is falsy,
numbers/strings/booleans have the wrong `typeof`, arrays are excluded
explicitly, so exactly JSON objects pass. -/
def passesObjectCheck : JVal → Bool
  | .obj _ => true
  | _ => false

/-! ### Session cache (rememberGame / getGame, src/game-mcp-app/utils.ts lines 7-22) -/

/-- A cached session record (`SessionGame` in src/game-mcp-app/types.ts). -/
structure SessionGame where
  bundle : String
  inputProps : JVal
  title : String

/-- The session cache: a JavaScript `Map` modelled as an association list in
insertion order, oldest first. -/
abbrev Cache := List (String × SessionGame)

/-- Embedding of `sessionGames.delete(sessionId)` (guarded by `has`, which is equivalent):
remove the entry with the given key. -/
def eraseKey (m : Cache) (sid : String) : Cache :=
  m.filter fun e => decide (e.1 ≠ sid)

/-- The eviction loop
`while (sessionGames.size > MAX_SESSIONS) delete first key`:
drop the least-recently-inserted entries until the size bound holds. -/
def evictWhile (cap : Nat) : Cache → Cache
  | [] => []
  | e :: t => if (e :: t).length > cap then evictWhile cap t else e :: t

/-- Embedding of `rememberGame(sessionId, game)`: no-op on a falsy (empty) session id;
otherwise delete any existing entry for the id, append the new record at the
most-recently-inserted end, then evict from the least-recently-inserted end
while the size exceeds the capacity.  The capacity is a parameter because the
source configures it per deployment (100 in src/game-mcp-app/utils.ts, 250 in
the non-bundling variant). -/
def rememberGame (cap : Nat) (m : Cache) (sid : String) (g : SessionGame) :
    Cache :=
  if sid = "" then m
  else evictWhile cap (eraseKey m sid ++ [(sid, g)])

/-- Embedding of `getGame(sessionId)`: plain lookup, no mutation. -/
def getGame (m : Cache) (sid : String) : Option SessionGame :=
  (m.find? fun e => decide (e.1 = sid)).map (·.2)

/-! ### MCP tool handlers (src/retro-games/resources/game-world/types.ts,
second document: the game-mcp server index) -/

/-- The value a tool handler returns: `gameError(msg)` or
`gameWidget(game)` (the widget payload carries the session record). -/
inductive ToolResponse where
  | err (msg : String)
  | widget (g : SessionGame)

/-- Whether a response is `gameError` with exactly the given message. -/
def ToolResponse.isErrWith : ToolResponse → String → Bool
  | .err m, msg => decide (m = msg)
  | .widget _, _ => false

/-- Whether a response is a widget (success) response. -/
def ToolResponse.isWidget : ToolResponse → Bool
  | .widget _ => true
  | .err _ => false

/-- The `NoActiveSession` rejection message of `update_game_state`. -/
def noActiveMsg : String := "No active game. Call start_game first."

/-- The `start_game` handler.  `initParse` is the outcome of
`JSON.parse(initialState)` (`none` when parsing threw); `compile` abstracts
`compileGameBundle` with its build step already supplied.  Returns the new
cache, the response, and whether compilation was attempted. -/
def start_game (cap : Nat) (compile : FileSet → Except String String)
    (m : Cache) (sid title : String) (files : FileSet)
    (initParse : Option JVal) : Cache × ToolResponse × Bool :=
  match initParse with
  | none => (m, .err "initialState must be valid JSON.", false)
  | some jv =>
    if ¬ passesObjectCheck jv then
      (m, .err "initialState must be a JSON object.", false)
    else if ¬ (jsTruthy (lookupFile files "main.tsx".data) ||
               jsTruthy (lookupFile files "main.ts".data)) then
      (m, .err "files must include 'main.tsx' or 'main.ts' as the entry point.",
       false)
    else
      match compile files with
      | .error e => (m, .err ("Compilation failed:\n" ++ e), true)
      | .ok bundle =>
        let game : SessionGame := ⟨bundle, jv, title⟩
        (rememberGame cap m sid game, .widget game, true)

/-- The `update_game_state` handler.  `stateParse` is the outcome of
`JSON.parse(state)`.  The handler first looks the session up, then validates
the state, then stores `{ ...previous, inputProps }` via `rememberGame` and
returns the widget response. -/
def update_game_state (cap : Nat) (m : Cache) (sid : String)
    (stateParse : Option JVal) : Cache × ToolResponse :=
  match getGame m sid with
  | none => (m, .err noActiveMsg)
  | some previous =>
    match stateParse with
    | none => (m, .err "state must be valid JSON.")
    | some jv =>
      if ¬ passesObjectCheck jv then (m, .err "state must be a JSON object.")
      else
        let updated : SessionGame := { previous with inputProps := jv }
        (rememberGame cap m sid updated, .widget updated)

/-- Sequences of cache operations, to state that reads do not affect the
cache: `getGame` performs no mutation in the source, so a `get` step leaves
the cache unchanged. -/
inductive CacheOp where
  | put (sid : String) (g : SessionGame)
  | get (sid : String)

/-- Whether an operation is a `put`. -/
def CacheOp.isPut : CacheOp → Bool
  | .put _ _ => true
  | .get _ => false

/-- Run a sequence of cache operations.  A `put` is `rememberGame`; a `get`
is `getGame`, which returns a value without touching the map. -/
def runOps (cap : Nat) (m : Cache) : List CacheOp → Cache
  | [] => m
  | .put sid g :: rest => runOps cap (rememberGame cap m sid g) rest
  | .get _ :: rest => runOps cap m rest

/-- Insert a list of (id, record) pairs in order, starting from a cache. -/
def putAll (cap : Nat) (m : Cache) (pairs : List (String × SessionGame)) :
    Cache :=
  pairs.foldl (fun acc p => rememberGame cap acc p.1 p.2) m

/-- Iterate `update_game_state` over a list of parsed state payloads,
threading the cache. -/
def iterUpdate (cap : Nat) (m : Cache) (sid : String)
    (states : List (Option JVal)) : Cache :=
  states.foldl (fun acc sp => (update_game_state cap acc sid sp).1) m

/-! ### Sandboxed executor (GameRenderer bundle effect,
src/game-mcp-app/resources/game-player/widget.tsx lines 165-198) -/

/-- What executing a compiled bundle string with `new Function` yields:
a module whose exports may or may not contain a `renderGame` function. -/
structure GameModule where
  hasRenderGame : Bool
deriving DecidableEq

/-- The refs of the `GameRenderer` component that the bundle-execution effect
reads and writes: the last bundle string seen (`prevBundleRef`), the stored
module (`moduleRef`), the error state, and — for the analysis — how many
times a bundle has been executed. -/
structure RenderState where
  prevBundle : Option String
  module : Option GameModule
  error : Option String
  execCount : Nat
deriving DecidableEq

/-- The initial state of a freshly mounted `GameRenderer`. -/
def RenderState.initial : RenderState := ⟨none, none, none, 0⟩

/-- The `useEffect` body that executes the bundle when it changes.  `exec`
abstracts running the artifact text with `new Function` (`.error` = the
execution threw).  Note the order in the source: `prevBundleRef.current =
bundle` is assigned *before* the `try` block executes the bundle, so a
failing bundle is still recorded as the last-seen bundle; and on failure
`moduleRef` is left as it was (only `setError` is called). -/
def bundleEffect (exec : String → Except String GameModule)
    (s : RenderState) (bundle : String) : RenderState :=
  if bundle = "" ∨ s.prevBundle = some bundle then s
  else
    let s1 : RenderState :=
      { prevBundle := some bundle, module := s.module, error := none,
        execCount := s.execCount + 1 }
    match exec bundle with
    | .error e => { s1 with error := some ("Bundle execution error: " ++ e) }
    | .ok gameModule =>
      if gameModule.hasRenderGame then { s1 with module := some gameModule }
      else
        { s1 with
          error := some "Bundle does not export renderGame(). Make sure main.tsx exports renderGame." }

/-! ### Per-container render lifecycle (RULE_GAME_ENGINE template,
src/unnamed/part_009 lines 36-91 and 371-395) -/

/-- The per-container state of the `renderGame` template: the `pending`
queue entry for the container (present exactly while an async init is in
flight), the scene (`none` = no scene; otherwise the props the scene was
built from and the update calls delivered to it, each with its `prev`
argument), and how many times initialization was started. -/
structure TargetState (Props : Type) where
  pending : Option (List Props)
  scene : Option (Props × List (Props × Option Props))
  inits : Nat

/-- A container that has never been rendered to. -/
def TargetState.empty {Props : Type} : TargetState Props :=
  ⟨none, none, 0⟩

/-- The synchronous prefix of `renderGame(container, props, prevProps)`, up
to the first `await`:
if `pending.has(container)`, push the props onto the queue and return;
if there is no scene, create the queue entry and begin the async init
(returning a state that carries the props captured by the in-flight init);
otherwise call `update(props, prevProps)` on the stored scene directly. -/
def renderEnter {Props : Type} (s : TargetState Props) (p : Props)
    (prev : Option Props) : TargetState Props × Option Props :=
  match s.pending with
  | some q => ({ s with pending := some (q ++ [p]) }, none)
  | none =>
    match s.scene with
    | none => ({ s with pending := some [], inits := s.inits + 1 }, some p)
    | some (p0, delivered) =>
      ({ s with scene := some (p0, delivered ++ [(p, prev)]) }, none)

/-- The continuation of `renderGame` after the awaited init resolves for the
call that captured `initProps`: store the scene built from the captured
props, then drain the queue strictly in order, calling `update(qp)` (no
`prev` argument) for each queued payload, and delete the queue entry. -/
def initComplete {Props : Type} (s : TargetState Props) (initProps : Props) :
    TargetState Props :=
  match s.pending with
  | none => s
  | some q =>
    { s with pending := none,
             scene := some (initProps, q.map (fun qp => (qp, none))) }

/-- Feed a list of render calls (props with their prev arguments) through the
synchronous entry while an init is in flight; the per-call second component
is `none` in this phase, so only the threaded state matters. -/
def enterAll {Props : Type} (s : TargetState Props)
    (calls : List (Props × Option Props)) : TargetState Props :=
  calls.foldl (fun acc c => (renderEnter acc c.1 c.2).1) s

/-! ### Concrete fixtures used by the scenario theorems and witnesses -/

/-- A concrete session record. -/
def gA : SessionGame := ⟨"bundleA", .obj [("score", .num 0)], "Game A"⟩

/-- A concrete session record. -/
def gB : SessionGame := ⟨"bundleB", .obj [("score", .num 1)], "Game B"⟩

/-- A concrete session record. -/
def gC : SessionGame := ⟨"bundleC", .obj [("score", .num 2)], "Game C"⟩

/-- A capacity-2 cache after inserting sessions A, B, C in order. -/
def m3 : Cache := putAll 2 [] [("A", gA), ("B", gB), ("C", gC)]

/-- The file set of the root-level-importer resolution scenario. -/
def c1Files : FileSet :=
  [("main.tsx".data, "import den from \x27./utils\x27;"),
   ("utils.ts".data, "export default 1;")]

/-- A file set containing only `foo.ts` and `foo.js`, both non-empty. -/
def c8Files : FileSet :=
  [("foo.ts".data, "export default 1;"),
   ("foo.js".data, "module.exports = 1;")]

/-- A bundle execution that always throws. -/
def execBoom : String → Except String GameModule := fun _ => .error "boom"

/-- A non-empty file set containing neither entry file name. -/
def c5Files : FileSet := [("foo.ts".data, "export const x = 1;")]

/-! ## Supporting lemmas -/

theorem evictWhile_eq_drop (cap : Nat) (m : Cache) :
    evictWhile cap m = m.drop (m.length - cap) := by
  induction m with
  | nil => simp [evictWhile]
  | cons e t ih =>
    rw [evictWhile]
    by_cases h : (e :: t).length > cap
    · rw [if_pos h, ih]
      have h2 : (e :: t).length - cap = (t.length - cap) + 1 := by
        simp only [List.length_cons] at h ⊢
        omega
      rw [h2, List.drop_succ_cons]
    · rw [if_neg h]
      have h2 : (e :: t).length - cap = 0 := by
        simp only [List.length_cons] at h ⊢
        omega
      rw [h2, List.drop_zero]

theorem length_evictWhile_le (cap : Nat) (m : Cache) :
    (evictWhile cap m).length ≤ cap := by
  rw [evictWhile_eq_drop, List.length_drop]
  omega

theorem length_rememberGame_le {cap : Nat} {m : Cache} (sid : String)
    (g : SessionGame) (h : m.length ≤ cap) :
    (rememberGame cap m sid g).length ≤ cap := by
  unfold rememberGame
  split
  · exact h
  · exact length_evictWhile_le cap _

theorem find?_eraseKey_self (m : Cache) (sid : String) :
    (eraseKey m sid).find? (fun e => decide (e.1 = sid)) = none := by
  rw [List.find?_eq_none]
  intro x hx
  have hmem := List.of_mem_filter hx
  simp only [decide_eq_true_eq] at hmem ⊢
  exact hmem

theorem eraseKey_eq_self {m : Cache} {sid : String}
    (h : ∀ e ∈ m, e.1 ≠ sid) : eraseKey m sid = m := by
  unfold eraseKey
  rw [List.filter_eq_self]
  intro a ha
  simpa using h a ha

theorem eraseKey_length_lt {m : Cache} {sid : String}
    (h : sid ∈ m.map (·.1)) : (eraseKey m sid).length < m.length := by
  induction m with
  | nil => simp at h
  | cons e t ih =>
    unfold eraseKey at ih ⊢
    simp only [List.map_cons, List.mem_cons] at h
    by_cases he : e.1 = sid
    · rw [List.filter_cons_of_neg (by simpa using he)]
      have := List.length_filter_le (fun e => decide (e.1 ≠ sid)) t
      simp only [List.length_cons]
      omega
    · rw [List.filter_cons_of_pos (by simpa using he)]
      have ht : sid ∈ t.map (·.1) := by
        rcases h with h | h
        · exact absurd h.symm he
        · exact h
      have := ih ht
      simp only [List.length_cons]
      omega

theorem getGame_rememberGame_self (cap : Nat) (m : Cache) (sid : String)
    (g : SessionGame) (hsid : sid ≠ "") (hcap : 0 < cap) :
    getGame (rememberGame cap m sid g) sid = some g := by
  unfold rememberGame
  rw [if_neg hsid, evictWhile_eq_drop]
  have hk : (eraseKey m sid ++ [(sid, g)]).length - cap ≤
      (eraseKey m sid).length := by
    simp only [List.length_append, List.length_cons, List.length_nil]
    omega
  rw [List.drop_append_of_le_length hk]
  unfold getGame
  rw [List.find?_append]
  have hnone : ((eraseKey m sid).drop
      ((eraseKey m sid ++ [(sid, g)]).length - cap)).find?
      (fun e => decide (e.1 = sid)) = none := by
    rw [List.find?_eq_none]
    intro x hx
    have hmem := List.of_mem_filter (List.drop_subset _ _ hx)
    simp only [decide_eq_true_eq] at hmem ⊢
    exact hmem
  rw [hnone]
  simp

theorem length_runOps_le (cap : Nat) (ops : List CacheOp) :
    ∀ m : Cache, m.length ≤ cap → (runOps cap m ops).length ≤ cap := by
  induction ops with
  | nil => intro m h; exact h
  | cons op rest ih =>
    intro m h
    cases op with
    | put sid g => exact ih _ (length_rememberGame_le sid g h)
    | get sid => exact ih _ h

theorem runOps_filter_puts (cap : Nat) (ops : List CacheOp) :
    ∀ m : Cache, runOps cap m ops = runOps cap m (ops.filter CacheOp.isPut) := by
  induction ops with
  | nil => intro m; rfl
  | cons op rest ih =>
    intro m
    cases op with
    | put sid g =>
      rw [List.filter_cons_of_pos (by rfl)]
      exact ih (rememberGame cap m sid g)
    | get sid =>
      rw [List.filter_cons_of_neg (by simp [CacheOp.isPut])]
      exact ih m

theorem putAll_fresh (cap : Nat) (pairs : List (String × SessionGame)) :
    (pairs.map (·.1)).Nodup → (∀ p ∈ pairs, p.1 ≠ "") →
    putAll cap [] pairs = pairs.drop (pairs.length - cap) := by
  induction pairs using List.reverseRecOn with
  | nil => intro _ _; simp [putAll]
  | append_singleton l p ih =>
    intro hnd hne
    rw [List.map_append] at hnd
    have hndl : (l.map (·.1)).Nodup := hnd.of_append_left
    have hnel : ∀ q ∈ l, q.1 ≠ "" := fun q hq => hne q (List.mem_append_left _ hq)
    have hfresh : p.1 ∉ l.map (·.1) := by
      intro hmem
      exact (List.disjoint_of_nodup_append hnd) hmem (by simp)
    have hfold : putAll cap [] (l ++ [p]) =
        rememberGame cap (putAll cap [] l) p.1 p.2 := by
      unfold putAll
      rw [List.foldl_append]
      rfl
    rw [hfold, ih hndl hnel]
    unfold rememberGame
    rw [if_neg (hne p (by simp))]
    have herase : eraseKey (l.drop (l.length - cap)) p.1 =
        l.drop (l.length - cap) := by
      apply eraseKey_eq_self
      intro e he hkey
      exact hfresh (hkey ▸ List.mem_map_of_mem (·.1) (List.drop_subset _ _ he))
    rw [herase, evictWhile_eq_drop]
    have hd : l.length - cap ≤ l.length := by omega
    rw [← List.drop_append_of_le_length hd, List.drop_drop]
    congr 1
    simp only [List.length_append, List.length_drop, List.length_cons,
      List.length_nil]
    omega

theorem iterUpdate_bundle_title (cap : Nat) (sid : String) (hcap : 0 < cap)
    (hsid : sid ≠ "") (states : List (Option JVal)) :
    ∀ (m : Cache) (rec : SessionGame), getGame m sid = some rec →
      ∃ rec2, getGame (iterUpdate cap m sid states) sid = some rec2 ∧
        rec2.bundle = rec.bundle ∧ rec2.title = rec.title := by
  induction states with
  | nil => intro m rec h; exact ⟨rec, h, rfl, rfl⟩
  | cons sp rest ih =>
    intro m rec h
    have hstep : iterUpdate cap m sid (sp :: rest) =
        iterUpdate cap (update_game_state cap m sid sp).1 sid rest := rfl
    rw [hstep]
    cases sp with
    | none =>
      have hm : (update_game_state cap m sid none).1 = m := by
        unfold update_game_state
        rw [h]
      rw [hm]
      exact ih m rec h
    | some jv =>
      by_cases hjv : passesObjectCheck jv = true
      · have hm : (update_game_state cap m sid (some jv)).1 =
            rememberGame cap m sid { rec with inputProps := jv } := by
          unfold update_game_state
          rw [h]
          simp [hjv]
        rw [hm]
        rcases ih _ { rec with inputProps := jv }
            (getGame_rememberGame_self cap m sid _ hsid hcap) with
          ⟨rec2, hget, hb, ht⟩
        exact ⟨rec2, hget, hb, ht⟩
      · have hm : (update_game_state cap m sid (some jv)).1 = m := by
          unfold update_game_state
          rw [h]
          simp [hjv]
        rw [hm]
        exact ih m rec h

/-! ## Claim theorems -/

/-- C4: for every configured capacity N, the session cache holds at most N
records after each put; after inserting N+k distinct (non-empty) session
identifiers it holds exactly the N most recently inserted ones, in insertion
order; a put on an already-present identifier removes and re-inserts it at
the most-recently-inserted end; and get operations do not affect the cache
contents or ordering at all. -/
theorem c4_sessionCacheCapacityAndRecency (cap : Nat) :
    (∀ (ops : List CacheOp) (n : Nat),
       (runOps cap [] (ops.take n)).length ≤ cap) ∧
    (∀ pairs : List (String × SessionGame), (pairs.map (·.1)).Nodup →
       (∀ p ∈ pairs, p.1 ≠ "") →
       putAll cap [] pairs = pairs.drop (pairs.length - cap)) ∧
    (∀ (m : Cache) (sid : String) (g : SessionGame), sid ≠ "" →
       m.length ≤ cap → sid ∈ m.map (·.1) →
       rememberGame cap m sid g = eraseKey m sid ++ [(sid, g)]) ∧
    (∀ (ops : List CacheOp) (m : Cache),
       runOps cap m ops = runOps cap m (ops.filter CacheOp.isPut)) := by
  refine ⟨fun ops n => length_runOps_le cap _ [] (by simp),
    putAll_fresh cap, ?_, fun ops m => runOps_filter_puts cap ops m⟩
  intro m sid g hsid hlen hmem
  unfold rememberGame
  rw [if_neg hsid, evictWhile_eq_drop]
  have hz : (eraseKey m sid ++ [(sid, g)]).length - cap = 0 := by
    have := eraseKey_length_lt hmem
    simp only [List.length_append, List.length_cons, List.length_nil]
    omega
  rw [hz, List.drop_zero]

/-- Witness for C4 at capacity 2: inserting the three distinct sessions A, B,
C leaves exactly the two most recent, and re-putting a present id moves it to
the most-recent end. -/
theorem c4_witness :
    putAll 2 [] [("A", gA), ("B", gB), ("C", gC)] = [("B", gB), ("C", gC)] ∧
    rememberGame 2 [("A", gA), ("B", gB)] "A" gC = [("B", gB), ("A", gC)] := by
  constructor
  · exact ((c4_sessionCacheCapacityAndRecency 2).2.1
      [("A", gA), ("B", gB), ("C", gC)] (by decide) (by decide)).trans (by rfl)
  · exact ((c4_sessionCacheCapacityAndRecency 2).2.2.1
      [("A", gA), ("B", gB)] "A" gC (by decide) (by decide) (by decide)).trans
      (by rfl)

/-- C6: when a session record exists, the state-update operation stores a
record that differs from the previous one only in its state field, refreshes
recency exactly the way a put does (the cache becomes `rememberGame` of the
state-only-updated record), and iterating the state-update operation any
number of times (with object states, non-object states, or unparsable
states) never changes the stored artifact or title. -/
theorem c6_updateStateOnlyPreservesArtifact (cap : Nat) (m : Cache)
    (sid : String) (prev : SessionGame) (hcap : 0 < cap) (hsid : sid ≠ "")
    (hprev : getGame m sid = some prev) :
    (∀ jv : JVal, passesObjectCheck jv = true →
       (update_game_state cap m sid (some jv)).1 =
         rememberGame cap m sid { prev with inputProps := jv } ∧
       getGame (update_game_state cap m sid (some jv)).1 sid =
         some { prev with inputProps := jv }) ∧
    (∀ states : List (Option JVal), ∃ rec2,
       getGame (iterUpdate cap m sid states) sid = some rec2 ∧
       rec2.bundle = prev.bundle ∧ rec2.title = prev.title) := by
  constructor
  · intro jv hjv
    have hred : update_game_state cap m sid (some jv) =
        (rememberGame cap m sid { prev with inputProps := jv },
         .widget { prev with inputProps := jv }) := by
      unfold update_game_state
      rw [hprev]
      simp [hjv]
    rw [hred]
    exact ⟨rfl, getGame_rememberGame_self cap m sid _ hsid hcap⟩
  · intro states
    exact iterUpdate_bundle_title cap sid hcap hsid states m prev hprev

/-- Witness for C6: a concrete one-record cache, one object-state update, and
an iterated update sequence, with artifact and title preserved. -/
theorem c6_witness :
    (getGame [("S", gA)] "S" = some gA ∧
       passesObjectCheck (JVal.obj []) = true) ∧
    (update_game_state 2 [("S", gA)] "S" (some (JVal.obj []))).1 =
      rememberGame 2 [("S", gA)] "S" { gA with inputProps := JVal.obj [] } ∧
    (∃ rec2, getGame (iterUpdate 2 [("S", gA)] "S"
        [some (JVal.obj []), none, some (JVal.arr [])]) "S" = some rec2 ∧
      rec2.bundle = gA.bundle ∧ rec2.title = gA.title) :=
  ⟨⟨rfl, rfl⟩,
   ((c6_updateStateOnlyPreservesArtifact 2 [("S", gA)] "S" gA (by decide)
      (by decide) rfl).1 (JVal.obj []) rfl).1,
   (c6_updateStateOnlyPreservesArtifact 2 [("S", gA)] "S" gA (by decide)
      (by decide) rfl).2 [some (JVal.obj []), none, some (JVal.arr [])]⟩

/-- C7: the state-update operation rejects with the NoActiveSession message
exactly when no record for the session id is present, and in that case the
cache is left unchanged; with capacity 2, after inserting A, B, C in order,
A has been evicted, a state-update for A rejects with NoActiveSession leaving
the cache unchanged, and state-updates for B and C still succeed. -/
theorem c7_noActiveSessionIffAbsent (cap : Nat) (m : Cache) (sid : String)
    (sp : Option JVal) :
    ((update_game_state cap m sid sp).2.isErrWith noActiveMsg = true ↔
       getGame m sid = none) ∧
    (getGame m sid = none → (update_game_state cap m sid sp).1 = m) ∧
    (getGame m3 "A" = none ∧
     update_game_state 2 m3 "A" (some (JVal.obj [])) = (m3, .err noActiveMsg) ∧
     (update_game_state 2 m3 "B" (some (JVal.obj []))).2.isWidget = true ∧
     (update_game_state 2 m3 "C" (some (JVal.obj []))).2.isWidget = true) := by
  refine ⟨?_, ?_, rfl, rfl, rfl, rfl⟩
  · cases hg : getGame m sid with
    | none =>
      unfold update_game_state
      rw [hg]
      simp [ToolResponse.isErrWith]
    | some prev =>
      unfold update_game_state
      rw [hg]
      cases sp with
      | none =>
        simp only [ToolResponse.isErrWith]
        constructor
        · intro hfalse
          exact absurd (of_decide_eq_true hfalse) (by decide)
        · intro hfalse
          exact absurd hfalse (by simp)
      | some jv =>
        by_cases hjv : passesObjectCheck jv = true
        · simp [hjv, ToolResponse.isErrWith]
        · simp only [hjv, Bool.not_eq_true, ToolResponse.isErrWith]
          constructor
          · intro hfalse
            simp only [eq_self_iff_true, Bool.not_true, if_neg,
              Bool.false_eq_true] at hfalse
            exact absurd (of_decide_eq_true (by simpa [hjv] using hfalse))
              (by decide)
          · intro hfalse
            exact absurd hfalse (by simp)
  · intro h
    unfold update_game_state
    rw [h]

/-- Witness for C7: a state-update for the evicted session A rejects and
leaves the cache untouched. -/
theorem c7_witness :
    getGame m3 "A" = none ∧ (update_game_state 2 m3 "A" none).1 = m3 :=
  ⟨rfl, (c7_noActiveSessionIffAbsent 2 m3 "A" none).2.1 rfl⟩

/-- C10: when `initialState` parses to a JSON value that is not an object
(array, number, string, boolean or null), `start_game` rejects with exactly
the message `initialState must be a JSON object.`, without attempting
compilation and without touching the session cache. -/
theorem c10_nonObjectInitialStateRejected (cap : Nat)
    (compile : FileSet → Except String String) (m : Cache)
    (sid title : String) (files : FileSet) (jv : JVal)
    (h : passesObjectCheck jv = false) :
    start_game cap compile m sid title files (some jv) =
      (m, .err "initialState must be a JSON object.", false) := by
  unfold start_game
  simp [h]

/-- Witness for C10: an array initial state is rejected before compilation,
for a compiler that would otherwise succeed. -/
theorem c10_witness :
    passesObjectCheck (JVal.arr []) = false ∧
    start_game 100 (fun _ => .ok "code") [("S", gA)] "S" "T" c1Files
        (some (JVal.arr [])) =
      ([("S", gA)], .err "initialState must be a JSON object.", false) :=
  ⟨rfl, c10_nonObjectInitialStateRejected 100 (fun _ => .ok "code")
    [("S", gA)] "S" "T" c1Files (JVal.arr []) rfl⟩

/-- C5: for every non-empty file set containing neither a file named
`main.tsx` nor one named `main.ts`, and every behavior of the underlying
build step (including throwing), `compileGameBundle` returns the entry-point
`CompileError` — whose message names both required filenames — rather than
throwing. -/
theorem c5_missingEntryYieldsCompileError (build : FileSet → BuildOutcome)
    (files : FileSet) (_hne : files ≠ [])
    (h1 : lookupFile files "main.tsx".data = none)
    (h2 : lookupFile files "main.ts".data = none) :
    compileGameBundle build files = .error entryPointMsg ∧
    "main.tsx".data <:+: entryPointMsg.data ∧
    "main.ts".data <:+: entryPointMsg.data := by
  refine ⟨?_, by decide, by decide⟩
  unfold compileGameBundle selectEntry
  rw [h1, h2]
  rfl

/-- Witness for C5: the scenario file set `foo.ts` only, against a build step
that would succeed with no output. -/
theorem c5_witness :
    (c5Files ≠ [] ∧ lookupFile c5Files "main.tsx".data = none ∧
       lookupFile c5Files "main.ts".data = none) ∧
    compileGameBundle (fun _ => .done [] []) c5Files = .error entryPointMsg :=
  ⟨⟨by decide, rfl, rfl⟩,
   (c5_missingEntryYieldsCompileError (fun _ => .done [] []) c5Files
     (by decide) rfl rfl).1⟩

/-- C1 (code bug): resolving the relative specifier `./utils` from the
root-level importer `main.tsx` against a file set with keys `main.tsx` and
`utils.ts` returns Unresolved in the code — the importer-directory regex
`/\/[^\/]+$/` does not match a slashless importer, so the whole importer
path `main.tsx` is used as the directory and the candidate becomes
`main.tsx/utils` — while the resolver as worded by the spec (directory of a
root-level importer = the empty directory) returns `utils.ts`. -/
theorem c1_rootImporterRelativeResolutionDiverges :
    resolveSpec c1Files "main.tsx".data "./utils".data = none ∧
    resolve_specModel c1Files "main.tsx".data "./utils".data =
      some "utils.ts".data ∧
    importerDir "main.tsx".data = "main.tsx".data ∧
    normalizeSpec "main.tsx".data "./utils".data = "main.tsx/utils".data := by
  exact ⟨by decide, by decide, by decide, by decide⟩

/-- Helper for C2: while the pending queue exists for a container, every
render call appends exactly its props payload to the queue, in arrival
order, and changes nothing else. -/
theorem enterAll_pending_some {P : Type} (calls : List (P × Option P)) :
    ∀ (s : TargetState P) (q : List P), s.pending = some q →
      enterAll s calls = { s with pending := some (q ++ calls.map (·.1)) } := by
  induction calls with
  | nil =>
    intro s q h
    cases s with
    | mk pending scene inits =>
      simp only [enterAll, List.foldl_nil, List.map_nil, List.append_nil]
      simp at h
      rw [h]
  | cons c rest ih =>
    intro s q h
    have hstep : enterAll s (c :: rest) =
        enterAll (renderEnter s c.1 c.2).1 rest := rfl
    have hre : (renderEnter s c.1 c.2).1 =
        { s with pending := some (q ++ [c.1]) } := by
      unfold renderEnter
      rw [h]
    rw [hstep, hre, ih _ (q ++ [c.1]) rfl]
    simp

/-- C2: for a single never-before-seen rendering target, when further render
calls arrive while the first asynchronous instantiation is pending, each of
their state payloads is queued in arrival order; immediately after
construction completes the scene is stored and every queued payload is
delivered to its update function in exactly the order submitted; and
initialization is started exactly once. -/
theorem c2_pendingQueueFIFOSingleInit {P : Type} (p0 : P) (prev0 : Option P)
    (calls : List (P × Option P)) :
    (renderEnter ((@TargetState.empty P)) p0 prev0).2 = some p0 ∧
    (enterAll (renderEnter ((@TargetState.empty P)) p0 prev0).1
        calls).pending = some (calls.map (·.1)) ∧
    (enterAll (renderEnter ((@TargetState.empty P)) p0 prev0).1
        calls).inits = 1 ∧
    initComplete
        (enterAll (renderEnter ((@TargetState.empty P)) p0 prev0).1
          calls) p0 =
      ⟨none, some (p0, calls.map (fun c => (c.1, none))), 1⟩ := by
  have h1 : (renderEnter ((@TargetState.empty P)) p0 prev0).1 =
      ⟨some [], none, 1⟩ := rfl
  have h2 := enterAll_pending_some calls (⟨some [], none, 1⟩ : TargetState P)
    [] rfl
  rw [h1, h2]
  refine ⟨rfl, by simp, rfl, ?_⟩
  unfold initComplete
  simp [List.map_map]

/-- C3 counterexample: after a failed instantiation the renderer has already
recorded the failed artifact text as last-seen, so a second render-update
with the same artifact text performs no new instantiation attempt — refuting
the claim that the target transitions back to Empty and retries
instantiation for the same artifact text. -/
theorem c3_counterexample :
    (bundleEffect execBoom RenderState.initial "b").module = none ∧
    (bundleEffect execBoom RenderState.initial "b").error =
      some "Bundle execution error: boom" ∧
    (bundleEffect execBoom RenderState.initial "b").execCount = 1 ∧
    bundleEffect execBoom (bundleEffect execBoom RenderState.initial "b") "b" =
      bundleEffect execBoom RenderState.initial "b" ∧
    ¬ (bundleEffect execBoom (bundleEffect execBoom RenderState.initial "b")
        "b").execCount = 2 := by
  exact ⟨rfl, rfl, rfl, rfl, by decide⟩

/-- C3 (amended): when instantiating a new artifact fails — its text throws
during execution or its exports lack the render entry point — the error is
surfaced and no SceneInstance is stored (the module ref is unchanged), but
the artifact text has already been recorded as last-seen, so a subsequent
render-update with the same artifact text is a no-op and does not attempt
instantiation again; only a different non-empty artifact text triggers a new
instantiation attempt. -/
theorem c3_failedInstantiationNoRetry
    (exec : String → Except String GameModule) (s : RenderState)
    (bundle : String) (hb : bundle ≠ "") (hnew : s.prevBundle ≠ some bundle)
    (hfail : ∀ gm, exec bundle = .ok gm → gm.hasRenderGame = false) :
    (bundleEffect exec s bundle).module = s.module ∧
    (bundleEffect exec s bundle).error.isSome = true ∧
    (bundleEffect exec s bundle).prevBundle = some bundle ∧
    (bundleEffect exec s bundle).execCount = s.execCount + 1 ∧
    (∀ exec2, bundleEffect exec2 (bundleEffect exec s bundle) bundle =
       bundleEffect exec s bundle) ∧
    (∀ (exec2 : String → Except String GameModule) (b2 : String), b2 ≠ "" →
       b2 ≠ bundle →
       (bundleEffect exec2 (bundleEffect exec s bundle) b2).execCount =
         s.execCount + 2) := by
  have hcond : ¬ (bundle = "" ∨ s.prevBundle = some bundle) := by
    rintro (h | h)
    · exact hb h
    · exact hnew h
  have hchar : (bundleEffect exec s bundle).prevBundle = some bundle ∧
      (bundleEffect exec s bundle).module = s.module ∧
      (bundleEffect exec s bundle).error.isSome = true ∧
      (bundleEffect exec s bundle).execCount = s.execCount + 1 := by
    cases hx : exec bundle with
    | error e =>
      refine ⟨?_, ?_, ?_, ?_⟩ <;> simp [bundleEffect, if_neg hcond, hx]
    | ok gm =>
      refine ⟨?_, ?_, ?_, ?_⟩ <;>
        simp [bundleEffect, if_neg hcond, hx, hfail gm hx]
  refine ⟨hchar.2.1, hchar.2.2.1, hchar.1, hchar.2.2.2, ?_, ?_⟩
  · intro exec2
    have key : ∀ t : RenderState, t.prevBundle = some bundle →
        bundleEffect exec2 t bundle = t := by
      intro t ht
      unfold bundleEffect
      rw [if_pos (Or.inr ht)]
    exact key _ hchar.1
  · intro exec2 b2 hb2 hne2
    have key : ∀ t : RenderState, t.prevBundle = some bundle →
        (bundleEffect exec2 t b2).execCount = t.execCount + 1 := by
      intro t ht
      have hcond2 : ¬ (b2 = "" ∨ t.prevBundle = some b2) := by
        rintro (h | h)
        · exact hb2 h
        · rw [ht] at h
          exact hne2 (Option.some_injective _ h).symm
      cases hx2 : exec2 b2 with
      | error e => simp [bundleEffect, if_neg hcond2, hx2]
      | ok gm =>
        by_cases hgm : gm.hasRenderGame = true
        · simp [bundleEffect, if_neg hcond2, hx2, hgm]
        · simp [bundleEffect, if_neg hcond2, hx2, hgm]
    rw [key _ hchar.1, hchar.2.2.2]

/-- Witness for C3 (amended) at a throwing execution of a fresh bundle. -/
theorem c3_witness :
    ("b" ≠ "" ∧ RenderState.initial.prevBundle ≠ some "b") ∧
    (bundleEffect execBoom RenderState.initial "b").module = none ∧
    bundleEffect execBoom (bundleEffect execBoom RenderState.initial "b") "b" =
      bundleEffect execBoom RenderState.initial "b" := by
  have h := c3_failedInstantiationNoRetry execBoom RenderState.initial "b"
    (by decide) (by decide) (fun gm hgm => by simp [execBoom] at hgm)
  exact ⟨⟨by decide, by decide⟩, h.1, h.2.2.2.2.1 execBoom⟩

/-- C9: the resolver returns Unresolved for the two externalized library
names `pixi.js` and `gsap` for every file set and importer — even when a
file of that name exists — and the bundling step, which receives exactly
those two names as its `external` option, leaves a module importing exactly
those names with both kept as runtime requires and reports nothing as an
unresolved module. -/
theorem c9_externalLibrariesPassthrough :
    (∀ (files : FileSet) (importer : Path),
       resolveSpec files importer "pixi.js".data = none ∧
       resolveSpec files importer "gsap".data = none) ∧
    (∀ (files : FileSet) (importer : Path),
       bundleImports files importer bundleExternals = .ok bundleExternals) := by
  constructor
  · intro files importer
    constructor
    · unfold resolveSpec
      rw [if_pos (by decide)]
    · unfold resolveSpec
      rw [if_pos (by decide)]
  · intro files importer
    rfl

/-! ### Suffix preservation through the textual normalization, for C8 -/

theorem runLen_eq_length {l : Path} (h : ∀ c ∈ l, c ≠ '/') :
    runLen l = l.length := by
  induction l with
  | nil => rfl
  | cons c rest ih =>
    have hc : c ≠ '/' := h c (List.mem_cons_self c rest)
    rw [runLen, if_neg hc, ih (fun x hx => h x (List.mem_cons_of_mem c hx))]
    rfl

theorem matchLenAt_none_of_noSlash {l : Path} (h : ∀ c ∈ l, c ≠ '/') :
    matchLenAt l = none := by
  unfold matchLenAt
  rw [runLen_eq_length h]
  by_cases hl : l.length = 0
  · rw [if_pos hl]
  · rw [if_neg hl, List.drop_length]
    simp

theorem collapseAux_noSlash :
    ∀ (fuel : Nat) (l : Path), (∀ c ∈ l, c ≠ '/') → collapseAux fuel l = l
  | 0, _, _ => rfl
  | _ + 1, [], _ => rfl
  | fuel + 1, c :: rest, h => by
    have hc : c ≠ '/' := h c (List.mem_cons_self c rest)
    rw [collapseAux, if_neg ?hne,
      collapseAux_noSlash fuel rest (fun x hx => h x (List.mem_cons_of_mem c hx))]
    case hne =>
      intro heq
      rw [List.take_succ_cons] at heq
      injection heq with h1 _
      exact hc h1

theorem stripDotDotAux_noSlash :
    ∀ (fuel : Nat) (l : Path), (∀ c ∈ l, c ≠ '/') → stripDotDotAux fuel l = l
  | 0, _, _ => rfl
  | _ + 1, [], _ => rfl
  | fuel + 1, c :: rest, h => by
    simp only [stripDotDotAux, matchLenAt_none_of_noSlash h]
    rw [stripDotDotAux_noSlash fuel rest
      (fun x hx => h x (List.mem_cons_of_mem c hx))]

theorem matchLenAt_facts {l : Path} {n : Nat} (h : matchLenAt l = some n) :
    1 ≤ n ∧ n ≤ l.length ∧ l.get? (n - 1) = some '/' := by
  unfold matchLenAt at h
  by_cases hr : runLen l = 0
  · rw [if_pos hr] at h
    exact absurd h (by simp)
  · rw [if_neg hr] at h
    by_cases hp : (l.drop (runLen l)).take 4 = ['/', '.', '.', '/']
    · rw [if_pos hp] at h
      have hn : n = runLen l + 4 := (Option.some_injective _ h).symm
      subst hn
      have hlen4 : 4 ≤ (l.drop (runLen l)).length := by
        have hl := congrArg List.length hp
        rw [List.length_take] at hl
        simp only [List.length_cons, List.length_nil] at hl
        omega
      rw [List.length_drop] at hlen4
      refine ⟨by omega, by omega, ?_⟩
      have hd : (l.drop (runLen l)).get? 3 = some '/' := by
        rw [← List.get?_take (by omega : 3 < 4), hp]
        rfl
      rw [List.get?_drop] at hd
      have harith : runLen l + 4 - 1 = runLen l + 3 := by omega
      rw [harith]
      exact hd
    · rw [if_neg hp] at h
      exact absurd h (by simp)

theorem collapseAux_append_foo :
    ∀ (fuel : Nat) (l1 : Path),
      ∃ pre, collapseAux fuel (l1 ++ ['f', 'o', 'o']) = pre ++ ['f', 'o', 'o']
  | 0, l1 => ⟨l1, rfl⟩
  | fuel + 1, [] =>
    ⟨[], by simpa using collapseAux_noSlash (fuel + 1) ['f', 'o', 'o'] (by decide)⟩
  | fuel + 1, c :: rest => by
    rw [List.cons_append, collapseAux]
    by_cases hpat : (c :: (rest ++ ['f', 'o', 'o'])).take 3 = ['/', '.', '/']
    · rw [if_pos hpat]
      cases rest with
      | nil =>
        exfalso
        rw [List.take_succ_cons, List.nil_append] at hpat
        injection hpat with _ h2
        injection h2 with h3 _
        exact absurd h3 (by decide)
      | cons d t =>
        cases t with
        | nil =>
          exfalso
          rw [List.take_succ_cons, List.cons_append, List.nil_append,
            List.take_succ_cons, List.take_succ_cons] at hpat
          injection hpat with _ h2
          injection h2 with _ h3
          injection h3 with h4 _
          exact absurd h4 (by decide)
        | cons e t2 =>
          have hdrop : (c :: ((d :: e :: t2) ++ ['f', 'o', 'o'])).drop 3 =
              t2 ++ ['f', 'o', 'o'] := rfl
          rw [hdrop]
          obtain ⟨pre, hpre⟩ := collapseAux_append_foo fuel t2
          exact ⟨'/' :: pre, by rw [hpre]; rfl⟩
    · rw [if_neg hpat]
      obtain ⟨pre, hpre⟩ := collapseAux_append_foo fuel rest
      exact ⟨c :: pre, by rw [hpre]; rfl⟩

theorem stripDotDotAux_append_foo :
    ∀ (fuel : Nat) (l1 : Path),
      ∃ pre, stripDotDotAux fuel (l1 ++ ['f', 'o', 'o']) = pre ++ ['f', 'o', 'o']
  | 0, l1 => ⟨l1, rfl⟩
  | fuel + 1, [] =>
    ⟨[], by simpa using stripDotDotAux_noSlash (fuel + 1) ['f', 'o', 'o'] (by decide)⟩
  | fuel + 1, c :: rest => by
    rw [List.cons_append, stripDotDotAux]
    cases hm : matchLenAt (c :: (rest ++ ['f', 'o', 'o'])) with
    | none =>
      obtain ⟨pre, hpre⟩ := stripDotDotAux_append_foo fuel rest
      exact ⟨c :: pre, by rw [hpre]; rfl⟩
    | some n =>
      show ∃ pre, stripDotDotAux fuel ((c :: (rest ++ ['f', 'o', 'o'])).drop n) =
        pre ++ ['f', 'o', 'o']
      obtain ⟨hn1, hnle, hslash⟩ := matchLenAt_facts hm
      have hnl1 : n ≤ (c :: rest).length := by
        by_contra hgt
        push_neg at hgt
        have hge : (c :: rest).length ≤ n - 1 := by omega
        rw [show (c :: (rest ++ ['f', 'o', 'o'])) =
          (c :: rest) ++ ['f', 'o', 'o'] from rfl] at hslash
        rw [List.get?_append_right hge] at hslash
        have htot : n ≤ (c :: rest).length + 3 := by
          simpa [List.length_append] using hnle
        have hk : n - 1 - (c :: rest).length < 3 := by omega
        have h3 : n - 1 - (c :: rest).length = 0 ∨
            n - 1 - (c :: rest).length = 1 ∨
            n - 1 - (c :: rest).length = 2 := by omega
        rcases h3 with h3 | h3 | h3 <;> rw [h3] at hslash <;>
          exact absurd hslash (by decide)
      have hdrop : (c :: (rest ++ ['f', 'o', 'o'])).drop n =
          ((c :: rest).drop n) ++ ['f', 'o', 'o'] := by
        rw [show (c :: (rest ++ ['f', 'o', 'o'])) =
          (c :: rest) ++ ['f', 'o', 'o'] from rfl]
        rw [List.drop_append_of_le_length hnl1]
      rw [hdrop]
      exact stripDotDotAux_append_foo fuel ((c :: rest).drop n)

theorem stripLeadingDotSlash_append_foo {l pre : Path}
    (h : l = pre ++ ['f', 'o', 'o']) :
    ∃ q, stripLeadingDotSlash l = q ++ ['f', 'o', 'o'] := by
  unfold stripLeadingDotSlash
  by_cases hp : l.take 2 = ['.', '/']
  · rw [if_pos hp]
    cases pre with
    | nil =>
      exfalso
      subst h
      rw [List.nil_append, List.take_succ_cons, List.take_succ_cons] at hp
      injection hp with h1 _
      exact absurd h1 (by decide)
    | cons a pre1 =>
      cases pre1 with
      | nil =>
        exfalso
        subst h
        rw [List.cons_append, List.nil_append, List.take_succ_cons,
          List.take_succ_cons] at hp
        injection hp with _ h2
        injection h2 with h3 _
        exact absurd h3 (by decide)
      | cons b pre2 =>
        subst h
        exact ⟨pre2, rfl⟩
  · rw [if_neg hp]
    exact ⟨pre, h⟩

theorem normChain_append_foo (l1 : Path) :
    ∃ pre, stripLeadingDotSlash (stripDotDot (collapse
      (l1 ++ ['f', 'o', 'o']))) = pre ++ ['f', 'o', 'o'] := by
  obtain ⟨p1, h1⟩ := collapseAux_append_foo (l1 ++ ['f', 'o', 'o']).length l1
  rw [show collapse (l1 ++ ['f', 'o', 'o']) = p1 ++ ['f', 'o', 'o'] from h1]
  obtain ⟨p2, h2⟩ := stripDotDotAux_append_foo (p1 ++ ['f', 'o', 'o']).length p1
  rw [show stripDotDot (p1 ++ ['f', 'o', 'o']) = p2 ++ ['f', 'o', 'o'] from h2]
  exact stripLeadingDotSlash_append_foo rfl

theorem normalizeSpec_dotFoo_suffix (importer : Path) :
    ∃ pre, normalizeSpec importer ['.', '/', 'f', 'o', 'o'] =
      pre ++ ['f', 'o', 'o'] := by
  by_cases him : importer = []
  · subst him
    exact ⟨[], by decide⟩
  · have hred : normalizeSpec importer ['.', '/', 'f', 'o', 'o'] =
        stripLeadingDotSlash (stripDotDot (collapse
          (if importerDir importer ≠ [] then
            importerDir importer ++ ('/' :: ['.', '/', 'f', 'o', 'o'])
          else ['.', '/', 'f', 'o', 'o']))) := by
      unfold normalizeSpec
      rw [if_pos ⟨by decide, him⟩]
    rw [hred]
    by_cases hd : importerDir importer ≠ []
    · rw [if_pos hd]
      rw [show importerDir importer ++ ('/' :: ['.', '/', 'f', 'o', 'o']) =
        (importerDir importer ++ ['/', '.', '/']) ++ ['f', 'o', 'o'] by simp]
      exact normChain_append_foo _
    · rw [if_neg hd]
      rw [show (['.', '/', 'f', 'o', 'o'] : Path) =
        ['.', '/'] ++ ['f', 'o', 'o'] from rfl]
      exact normChain_append_foo ['.', '/']

/-- C8 counterexample: resolving `./foo` from the root-level importer
`main.tsx` against the file set containing only `foo.ts` and `foo.js`
returns Unresolved, not `foo.ts`, so the in-particular clause quantified
over every importer fails on the code. -/
theorem c8_counterexample :
    resolveSpec c8Files "main.tsx".data "./foo".data = none ∧
    resolveSpec c8Files "main.tsx".data "./foo".data ≠ some "foo.ts".data := by
  exact ⟨by decide, by decide⟩

/-- C8 (amended): for every non-external specifier, resolution looks up the
candidates in the fixed order — the literal normalized path, then the path
with `.tsx`, `.ts`, `.jsx`, `.js` appended — and returns the first candidate
whose content in the file set is truthy (present with non-empty text),
otherwise Unresolved; resolving `./foo` with an empty importer against a
file set containing only non-empty `foo.ts` and `foo.js` returns `foo.ts`;
and for every importer whatsoever, resolving `./foo` against that file set
never returns `foo.js`. -/
theorem c8_extensionSearchOrder :
    (∀ (files : FileSet) (importer spec : Path), isExternalName spec = false →
       resolveSpec files importer spec =
         (candidates (normalizeSpec importer spec)).find?
           (fun c => jsTruthy (lookupFile files c))) ∧
    resolveSpec c8Files [] "./foo".data = some "foo.ts".data ∧
    (∀ importer : Path,
       resolveSpec c8Files importer "./foo".data ≠ some "foo.js".data) := by
  refine ⟨?_, by decide, ?_⟩
  · intro files importer spec h
    unfold resolveSpec
    rw [if_neg (by simp [h])]
  · intro importer h
    rw [show ("./foo".data : Path) = ['.', '/', 'f', 'o', 'o'] from rfl] at h
    unfold resolveSpec at h
    rw [if_neg (by decide)] at h
    obtain ⟨pre, hpre⟩ := normalizeSpec_dotFoo_suffix importer
    rw [hpre] at h
    have hmem := List.mem_of_find?_eq_some h
    simp only [candidates, extensions, List.map_cons, List.map_nil,
      List.mem_cons, List.not_mem_nil, or_false] at hmem
    rcases hmem with h1 | h2 | h3 | h4 | h5
    · have hs : ['f', 'o', 'o'] <:+ ("foo.js".data : Path) :=
        ⟨pre, h1.symm⟩
      exact absurd hs (by decide)
    · have hs : (".tsx".data : Path) <:+ ("foo.js".data : Path) :=
        ⟨pre ++ ['f', 'o', 'o'], h2.symm⟩
      exact absurd hs (by decide)
    · have hs : (".ts".data : Path) <:+ ("foo.js".data : Path) :=
        ⟨pre ++ ['f', 'o', 'o'], h3.symm⟩
      exact absurd hs (by decide)
    · have hs : (".jsx".data : Path) <:+ ("foo.js".data : Path) :=
        ⟨pre ++ ['f', 'o', 'o'], h4.symm⟩
      exact absurd hs (by decide)
    · have h5x := h5.symm.trans
        (show (['f', 'o', 'o', '.', 'j', 's'] : Path) =
          ['f', 'o', 'o'] ++ ['.', 'j', 's'] from rfl)
      have hbase : pre ++ ['f', 'o', 'o'] = ['f', 'o', 'o'] :=
        List.append_cancel_right h5x
      rw [hbase] at h
      exact absurd h (by decide)

/-- Witness for C8 (amended) at a concrete non-external specifier and a
concrete importer. -/
theorem c8_witness :
    isExternalName "./foo".data = false ∧
    resolveSpec c8Files "src/main.tsx".data "./foo".data =
      (candidates (normalizeSpec "src/main.tsx".data "./foo".data)).find?
        (fun c => jsTruthy (lookupFile c8Files c)) ∧
    resolveSpec c8Files "src/main.tsx".data "./foo".data ≠
      some "foo.js".data :=
  ⟨by decide,
   c8_extensionSearchOrder.1 c8Files "src/main.tsx".data "./foo".data
     (by decide),
   c8_extensionSearchOrder.2.2 "src/main.tsx".data⟩

end GameMotion
